import Mathlib

/-!
Verification of the docker-registry-pruner registry client and pruning
decision engine, as a shallow embedding of the Go source.

Modelling conventions:
* Go strings are modelled as Lean strings; index arithmetic performed by the
  source on byte positions is modelled on character positions, which agrees
  with the source on ASCII data (all inputs the program handles here are
  HTTP headers and identifiers, which are ASCII).
* Go `time.Time` values are modelled as `Int` (nanoseconds since epoch);
  `t.After(u)` is `t > u`, `t.Add(-d)` is `t - d`, matching the statements
  the source makes about times.
* A Go runtime panic (out-of-range index or slice) is modelled by the
  `GoResult.panicked` outcome; normal completion is `GoResult.ok`.
* Go `error` returns are modelled by `Except`; the distinct error values the
  source can produce are the constructors of `ReqError`.
* The network is modelled by explicit oracle functions passed to each
  operation: a deterministic response for each request the code builds.
* Go maps (`map[string]string`, `map[string][]string`) are modelled as
  association lists with at most one entry per key; equality of maps is
  lookup equality, which the association-list operations preserve.
-/

/-- Outcome of running a piece of Go code: a value, or a runtime panic. -/
inductive GoResult (α : Type) where
  | ok (val : α)
  | panicked
  deriving DecidableEq, Repr

/-- The distinct `error` values produced by the registry client source. -/
inductive ReqError where
  /-- A transport-level failure reported by the HTTP client (`client.Do`). -/
  | transport (msg : String)
  /-- "Got non-success HTTP status %d when sending %s %s." from `request`. -/
  | nonSuccessStatus (status : Int) (method : String) (path : String)
  /-- "Www-Authenticate response header refers to unsupported authentication scheme". -/
  | authSchemeUnsupported
  /-- "no realm found in Www-Authenticate response header". -/
  | missingRealm
  /-- "no service found in Www-Authenticate response header". -/
  | missingService
  /-- "no scope found in Www-Authenticate response header". -/
  | missingScope
  /-- "unexpected response code %d from token service" from `fetchBearerToken`. -/
  | tokenServiceStatus (status : Int)
  /-- A `json` decoding failure (`json.Decode` / `json.Unmarshal`). -/
  | jsonDecode
  deriving DecidableEq, Repr

/-- Decidable equality of fallible results, so that concrete runs of the
model can be checked by evaluation. -/
instance {ε α : Type} [DecidableEq ε] [DecidableEq α] : DecidableEq (Except ε α) := fun x y =>
  match x, y with
  | .error a, .error b =>
    if h : a = b then .isTrue (by rw [h]) else .isFalse (fun hh => h (Except.error.inj hh))
  | .ok a, .ok b =>
    if h : a = b then .isTrue (by rw [h]) else .isFalse (fun hh => h (Except.ok.inj hh))
  | .error _, .ok _ => .isFalse (fun hh => Except.noConfusion hh)
  | .ok _, .error _ => .isFalse (fun hh => Except.noConfusion hh)

/-- Looks a key up in a string/string association list, returning the Go
zero value `""` when absent (Go map indexing / `http.Header.Get`). -/
def lookupString (fields : List (String × String)) (key : String) : String :=
  match fields.find? (fun p => p.1 == key) with
  | none => ""
  | some p => p.2

/-- Looks a key up in a string/string association list, `none` when absent
(the Go `value, present := m[key]` form). -/
def lookupOpt (fields : List (String × String)) (key : String) : Option String :=
  (fields.find? (fun p => p.1 == key)).map (fun p => p.2)

/-- Models Go `strings.Index` (first occurrence, -1 when absent), on the
character list of the string. -/
def strIndex : List Char → Char → Int
  | [], _ => -1
  | x :: xs, c =>
    if x = c then 0
    else
      let r := strIndex xs c
      if r < 0 then -1 else r + 1

/-- Models Go `strings.LastIndex` (last occurrence, -1 when absent). -/
def strLastIndex : List Char → Char → Int
  | [], _ => -1
  | x :: xs, c =>
    let r := strLastIndex xs c
    if 0 ≤ r then r + 1 else if x = c then 0 else -1

/-- Models the Go slice expression `s[b:e]`: panics unless `0 ≤ b ≤ e ≤ len s`. -/
def goStringSlice (cs : List Char) (b e : Int) : GoResult String :=
  if 0 ≤ b ∧ b ≤ e ∧ e ≤ (cs.length : Int) then
    .ok (((cs.drop b.toNat).take (e - b).toNat).asString)
  else .panicked

/-- An HTTP response as the client observes it: status code, headers, and the
decoded views of the JSON body under each schema the client ever decodes it
with (`none` models a `json` decode error for that schema).  Fields of
schemas irrelevant to an endpoint are simply never read for its responses. -/
structure HttpResponse where
  statusCode : Int
  headers : List (String × String)
  /-- Decoded `{"token": ...}` body as a JSON object of string fields. -/
  tokenJson : Option (List (String × String)) := none
  /-- Decoded v1 manifest `history`: for each item, the result of
  `json.Unmarshal` of its `v1Compatibility` blob (`none` = decode error,
  `some t` = a `created` timestamp `t`). -/
  v1History : Option (List (Option Int)) := none
  /-- Decoded `{"repositories": [...]}` body. -/
  catalogRepositories : Option (List String) := none
  deriving DecidableEq, Repr

/-- Models `resp.Header.Get(key)`: first value for the key, `""` if absent. -/
def headerGet (resp : HttpResponse) (key : String) : String :=
  lookupString resp.headers key

/-- Go regexp `\w`: ASCII letters, digits and underscore. -/
def isWordChar (c : Char) : Bool :=
  c.isAlphanum || c == '_'

/-- One leftmost-first match attempt of the pattern `(\w+)="([^"]*)"` at the
head of the input: the maximal nonempty word run, then `="`, then the maximal
quote-free run, then `"`.  Returns the two submatches and the remainder after
the match.  (Backtracking cannot produce any other match at this position:
shortening the greedy runs places a word character where `=` must match, or a
non-quote character where `"` must match.) -/
def matchKV (cs : List Char) : Option (String × String × List Char) :=
  let ws := cs.takeWhile isWordChar
  if ws.isEmpty then none
  else
    match cs.drop ws.length with
    | '=' :: '"' :: rest =>
      let vs := rest.takeWhile (fun c => !(c == '"'))
      match rest.drop vs.length with
      | '"' :: rest2 => some (ws.asString, vs.asString, rest2)
      | _ => none
    | _ => none

/-- Models `regexp.FindAllSubmatch` for the pattern above: successive
non-overlapping leftmost matches; on failure at a position the scan advances
one character.  The fuel argument (instantiated with the input length) only
makes the recursion structural; each step consumes at least one character. -/
def findAllKV : Nat → List Char → List (String × String)
  | 0, _ => []
  | _, [] => []
  | fuel + 1, c :: cs =>
    match matchKV (c :: cs) with
    | some (k, v, rest) => (k, v) :: findAllKV fuel rest
    | none => findAllKV fuel cs

/-- Models Go map assignment `m[k] = v` on an association list with unique
keys: overwrites the entry for `k` or appends a new one. -/
def mapSet (m : List (String × String)) (k v : String) : List (String × String) :=
  match m with
  | [] => [(k, v)]
  | (k0, v0) :: rest => if k0 == k then (k0, v) :: rest else (k0, v0) :: mapSet rest k v

/-- `extractKeyValuePairs` from the source: collects every `key="value"`
match of the challenge header into a map. -/
def extractKeyValuePairs (header : String) : List (String × String) :=
  let ms := findAllKV header.toList.length header.toList
  ms.foldl (fun result m => mapSet result m.1 m.2) []

/-- Uppercase hexadecimal digit, as Go `"0123456789ABCDEF"[n]`. -/
def hexDigit (n : Nat) : Char :=
  if n < 10 then Char.ofNat (48 + n) else Char.ofNat (55 + n)

/-- UTF-8 bytes of a character (Go strings are UTF-8 byte sequences). -/
def utf8Bytes (c : Char) : List Nat :=
  let n := c.toNat
  if n < 0x80 then [n]
  else if n < 0x800 then
    [0xC0 ||| (n >>> 6), 0x80 ||| (n &&& 0x3F)]
  else if n < 0x10000 then
    [0xE0 ||| (n >>> 12), 0x80 ||| ((n >>> 6) &&& 0x3F), 0x80 ||| (n &&& 0x3F)]
  else
    [0xF0 ||| (n >>> 18), 0x80 ||| ((n >>> 12) &&& 0x3F),
     0x80 ||| ((n >>> 6) &&& 0x3F), 0x80 ||| (n &&& 0x3F)]

/-- Percent-encoding of one byte, `%XX` with uppercase hex. -/
def escapeByte (b : Nat) : List Char :=
  ['%', hexDigit (b / 16), hexDigit (b % 16)]

/-- Models Go `url.QueryEscape`: RFC 3986 unreserved characters kept, space
becomes `+`, every other byte percent-encoded. -/
def queryEscape (s : String) : String :=
  ((s.toList.map fun c =>
      if c == ' ' then ['+']
      else if c.isAlphanum || c == '-' || c == '_' || c == '.' || c == '~' then [c]
      else ((utf8Bytes c).map escapeByte).flatten).flatten).asString

/-- Insertion of one parameter into a key-sorted parameter list. -/
def insertSortedParam (p : String × String) : List (String × String) → List (String × String)
  | [] => [p]
  | q :: qs => if (compare p.1 q.1).isLE then p :: q :: qs else q :: insertSortedParam p qs

/-- Models Go `url.Values.Encode` for single-valued parameters: keys sorted,
each rendered `key=value` with both sides query-escaped, joined by `&`. -/
def urlValuesEncode (params : List (String × String)) : String :=
  let sorted := params.foldr insertSortedParam []
  String.intercalate "&" (sorted.map fun p => queryEscape p.1 ++ "=" ++ queryEscape p.2)

/-- `tokenRequestURLFromResponse` from the source.  Reads the
`Www-Authenticate` header of the denied response; `header[:7]` panics when
the header is shorter than 7 bytes, otherwise a scheme other than `Bearer `
or a missing `realm`/`service`/`scope` key is an error, and the success
value is the realm URL with the service and scope as query parameters. -/
def tokenRequestURLFromResponse (deniedResponse : HttpResponse) : GoResult (Except ReqError String) :=
  let header := headerGet deniedResponse "Www-Authenticate"
  if header.length < 7 then .panicked
  else if header.take 7 ≠ "Bearer " then .ok (.error .authSchemeUnsupported)
  else
    let instructions := extractKeyValuePairs header
    match lookupOpt instructions "realm" with
    | none => .ok (.error .missingRealm)
    | some realm =>
      match lookupOpt instructions "service" with
      | none => .ok (.error .missingService)
      | some service =>
        match lookupOpt instructions "scope" with
        | none => .ok (.error .missingScope)
        | some scope =>
          .ok (.ok (realm ++ "?" ++ urlValuesEncode [("service", service), ("scope", scope)]))

/-- The client's mutable fields that the request path reads and writes. -/
structure APIState where
  user : String := ""
  pass : String := ""
  bearerToken : String := ""
  pageSize : Int := 0
  deriving DecidableEq, Repr

/-- The GET the token exchange sends: the derived URL, with the caller's
basic credentials attached when a user is configured. -/
structure TokenRequest where
  url : String
  basic : Option (String × String)
  deriving DecidableEq, Repr

/-- `fetchBearerToken` from the source: derive the token URL from the denied
response, GET it (with basic credentials when configured), fail on a
non-success status, then decode `{"token": ...}` and return the `token`
field — which is the empty string, with no error, when the field is absent
from a successfully decoded body. -/
def fetchBearerToken (tokenNet : TokenRequest → Except String HttpResponse)
    (st : APIState) (deniedResponse : HttpResponse) : GoResult (Except ReqError String) :=
  match tokenRequestURLFromResponse deniedResponse with
  | .panicked => .panicked
  | .ok (.error e) => .ok (.error e)
  | .ok (.ok u) =>
    let treq : TokenRequest := ⟨u, if st.user ≠ "" then some (st.user, st.pass) else none⟩
    match tokenNet treq with
    | .error msg => .ok (.error (.transport msg))
    | .ok resp =>
      if 300 ≤ resp.statusCode then .ok (.error (.tokenServiceStatus resp.statusCode))
      else
        match resp.tokenJson with
        | none => .ok (.error .jsonDecode)
        | some fields => .ok (.ok (lookupString fields "token"))

/-- The two manifest schema versions the client requests. -/
inductive ManifestVersion where
  | v1
  | v2
  deriving DecidableEq, Repr

/-- The `Accept` content type for each schema version. -/
def manifestContentType : ManifestVersion → String
  | .v1 => "application/vnd.docker.distribution.manifest.v1+prettyjws"
  | .v2 => "application/vnd.docker.distribution.manifest.v2+json"

/-- A registry request as `registryRequest` builds it: method, path, the
optional page-size query parameter, the `Accept` header, basic credentials
when a user is configured, and the bearer token (`""` models the absence of
an `Authorization: Bearer` header). -/
structure HttpRequest where
  method : String
  path : String
  pageN : Option Int
  accept : String
  basic : Option (String × String)
  bearer : String
  deriving DecidableEq, Repr

/-- The request-building half of `registryRequest`. -/
def buildRequest (st : APIState) (method path : String) (version : ManifestVersion) : HttpRequest :=
  { method := method
    path := path
    pageN := if st.pageSize > 0 then some st.pageSize else none
    accept := manifestContentType version
    basic := if st.user ≠ "" then some (st.user, st.pass) else none
    bearer := st.bearerToken }

/-- `registryRequest` from the source: build the request and send it through
the HTTP client (the `net` oracle); a transport failure is an error. -/
def registryRequest (net : HttpRequest → Except String HttpResponse)
    (st : APIState) (method path : String) (version : ManifestVersion) :
    Except String HttpResponse :=
  net (buildRequest st method path version)

/-- What one `request` call sent over the network: every registry request it
issued, in order, and how many token fetches it attempted. -/
structure CallTrace where
  registryCalls : List HttpRequest
  tokenFetches : Nat
  deriving DecidableEq, Repr

/-- `request` from the source: send the registry request; a status below 300
is success; on a 401 carrying a `Www-Authenticate` header, fetch a bearer
token, store it, and re-issue the request once; any remaining non-success
status is the operation's error.  Returns the updated client state, the
result, and the trace of network activity. -/
def request (net : HttpRequest → Except String HttpResponse)
    (tokenNet : TokenRequest → Except String HttpResponse)
    (st : APIState) (method path : String) (version : ManifestVersion) :
    GoResult (APIState × Except ReqError HttpResponse) × CallTrace :=
  let req1 := buildRequest st method path version
  match registryRequest net st method path version with
  | .error msg => (.ok (st, .error (.transport msg)), ⟨[req1], 0⟩)
  | .ok resp1 =>
    if resp1.statusCode < 300 then (.ok (st, .ok resp1), ⟨[req1], 0⟩)
    else if resp1.statusCode = 401 ∧ headerGet resp1 "Www-Authenticate" ≠ "" then
      match fetchBearerToken tokenNet st resp1 with
      | .panicked => (.panicked, ⟨[req1], 1⟩)
      | .ok (.error e) => (.ok (st, .error e), ⟨[req1], 1⟩)
      | .ok (.ok token) =>
        let st2 := { st with bearerToken := token }
        let req2 := buildRequest st2 method path version
        match registryRequest net st2 method path version with
        | .error msg => (.ok (st2, .error (.transport msg)), ⟨[req1, req2], 1⟩)
        | .ok resp2 =>
          if resp2.statusCode ≥ 300 then
            (.ok (st2, .error (.nonSuccessStatus resp2.statusCode method path)), ⟨[req1, req2], 1⟩)
          else (.ok (st2, .ok resp2), ⟨[req1, req2], 1⟩)
    else (.ok (st, .error (.nonSuccessStatus resp1.statusCode method path)), ⟨[req1], 0⟩)

/-- `nextPagePath` from the source: an absent (empty) `Link` header means no
further page; otherwise the value is sliced between one past the first `<`
and the last `>` — a slice that panics when its bounds are invalid. -/
def nextPagePath (resp : HttpResponse) : GoResult String :=
  let link := headerGet resp "Link"
  if link = "" then .ok ""
  else
    let cs := link.toList
    let b := strIndex cs '<' + 1
    let e := strLastIndex cs '>'
    goStringSlice cs b e

/-- `GetRepositories` from the source, over the transcript of the successful
catalog responses the registry returns to its successive page requests (a
response that `request` would have turned into an error is outside this
transcript; the claims about this loop concern runs whose page requests
succeed).  Decodes each page's name list, accumulates it, and follows
`nextPagePath` until it yields the empty path.  The inner `Option` is `none`
for the model artifact of a transcript that ends while the loop still wants
another page. -/
def GetRepositories : List HttpResponse → GoResult (Except ReqError (Option (List String)))
  | [] => .ok (.ok none)
  | resp :: rest =>
    match resp.catalogRepositories with
    | none => .ok (.error .jsonDecode)
    | some names =>
      match nextPagePath resp with
      | .panicked => .panicked
      | .ok path =>
        if path = "" then .ok (.ok (some names))
        else
          match GetRepositories rest with
          | .panicked => .panicked
          | .ok (.error e) => .ok (.error e)
          | .ok (.ok none) => .ok (.ok none)
          | .ok (.ok (some more)) => .ok (.ok (some (names ++ more)))

/-- The Go loop body `result[digest] = append(result[digest], tag)` together
with the preceding creation of a fresh empty slice for an unseen digest:
appends the tag to the digest's group, creating the group if necessary. -/
def addTag (m : List (String × List String)) (digest tag : String) :
    List (String × List String) :=
  match m with
  | [] => [(digest, [tag])]
  | (d, ts) :: rest =>
    if d == digest then (d, ts ++ [tag]) :: rest else (d, ts) :: addTag rest digest tag

/-- The loop of `GetTagsIndexedByDigest`: resolve each tag's digest in order
(`digestOf` models `GetDigest`; an error aborts the whole call) and group. -/
def groupLoop (digestOf : String → Except ReqError String) :
    List String → List (String × List String) →
    Except ReqError (List (String × List String))
  | [], result => .ok result
  | tag :: rest, result =>
    match digestOf tag with
    | .error e => .error e
    | .ok digest => groupLoop digestOf rest (addTag result digest tag)

/-- `GetTagsIndexedByDigest` from the source, given the tag list `GetTags`
returned and the digest resolution `GetDigest` performs per tag. -/
def GetTagsIndexedByDigest (digestOf : String → Except ReqError String)
    (tags : List String) : Except ReqError (List (String × List String)) :=
  groupLoop digestOf tags []

/-- Go map lookup `result[digest]` on a tag-group map (zero value `[]`). -/
def grpOf (m : List (String × List String)) (digest : String) : List String :=
  match m.find? (fun p => p.1 == digest) with
  | none => []
  | some p => p.2

/-- `GetManifestDigestAndCreated` from the source, over the outcome of its
`request` call (an `Except.error` argument models a transport, status or
authentication failure of the request path).  Decodes the v1 manifest body,
then reads `manifest.History[0]` — an index that panics when the decoded
history list is empty — decodes its `v1Compatibility` blob, and pairs the
`Docker-Content-Digest` header with the blob's creation time. -/
def GetManifestDigestAndCreated (res : Except ReqError HttpResponse) :
    GoResult (Except ReqError (String × Int)) :=
  match res with
  | .error e => .ok (.error e)
  | .ok resp =>
    match resp.v1History with
    | none => .ok (.error .jsonDecode)
    | some history =>
      match history with
      | [] => .panicked
      | item :: _ =>
        match item with
        | none => .ok (.error .jsonDecode)
        | some created => .ok (.ok (headerGet resp "Docker-Content-Digest", created))

/-- The DELETE request `DeleteManifest` issues, as a method/path pair. -/
def deleteManifestRequest (repository digest : String) : String × String :=
  ("DELETE", "/v2/" ++ repository ++ "/manifests/" ++ digest)

/-- The configuration values the pruning loop reads (the two `MatchString`
regular-expression filters are modelled as their matching predicates, since
the source treats them opaquely through `MatchString`). -/
structure PrunerConfig where
  reposMatch : String → Bool
  tagsMatch : String → Bool
  minAge : Int
  dry : Bool

/-- `allMatch` from the source: true when every string of the slice matches
the expression. -/
def allMatch : List String → (String → Bool) → Bool
  | [], _ => true
  | s :: rest, expr => if !(expr s) then false else allMatch rest expr

/-- What the main loop does with one manifest group. -/
inductive GroupAction where
  | skip
  | wouldDelete (repository digest : String) (tags : List String)
  | deleteManifest (repository digest : String) (tags : List String)
  deriving DecidableEq, Repr

/-- The tail of the main loop body once the group survives both filters:
dry mode records a would-delete, live mode calls `DeleteManifest`. -/
def finishGroup (cfg : PrunerConfig) (repository digest : String)
    (tags : List String) : GoResult GroupAction :=
  if cfg.dry then .ok (.wouldDelete repository digest tags)
  else .ok (.deleteManifest repository digest tags)

/-- The main loop body for one manifest group of a repository that passed
the repository filter: skip unless all tags match; when a minimum age is
configured, read the creation time of `tags[0]` (a Go index that panics on
an empty tag list; `createdOf` models `GetManifestCreated`, `none` being its
error, which the loop logs and skips) and skip when it is after
`now - minAge`; otherwise delete or record, per the dry flag. -/
def processGroup (cfg : PrunerConfig) (now : Int) (createdOf : String → Option Int)
    (repository digest : String) (tags : List String) : GoResult GroupAction :=
  if !(allMatch tags cfg.tagsMatch) then .ok .skip
  else if cfg.minAge > 0 then
    match tags with
    | [] => .panicked
    | t0 :: _ =>
      match createdOf t0 with
      | none => .ok .skip
      | some created =>
        if created > now - cfg.minAge then .ok .skip
        else finishGroup cfg repository digest tags
  else finishGroup cfg repository digest tags

/-- The decision the main loop reaches for one group, with the repository
filter included: the source checks the filter once per repository before
iterating its groups, which per group is equivalent to skipping it. -/
def decideGroup (cfg : PrunerConfig) (now : Int) (createdOf : String → Option Int)
    (repository digest : String) (tags : List String) : GoResult GroupAction :=
  if !(cfg.reposMatch repository) then .ok .skip
  else processGroup cfg now createdOf repository digest tags

/-- The registry requests an action leads the loop to issue: only a live
delete calls `DeleteManifest`. -/
def groupRequests : GroupAction → List (String × String)
  | .deleteManifest repository digest _ => [deleteManifestRequest repository digest]
  | _ => []

/-- The characters of one `key="value"` unit of a well-formed challenge
header. -/
def renderKV (k v : String) : List Char :=
  k.toList ++ '=' :: '"' :: (v.toList ++ ['"'])

/-- The characters of a well-formed challenge header: each `key="value"`
unit preceded by its separator characters (empty before the first unit, a
comma followed by optional whitespace before each later one). -/
def renderItems : List (List Char × String × String) → List Char
  | [] => []
  | (sep, k, v) :: rest => sep ++ renderKV k v ++ renderItems rest

/-- C1 (amended): a manifest group is deleted (or recorded as would-delete)
if and only if the repository matches the repository filter, every tag of
the group matches the tag filter, and, when a minimum age is configured, the
group's creation time is at or before now minus the minimum age (the source
skips only groups whose creation time is strictly after `now - minAge`, so a
group created exactly `now - minAge` ago is deleted). -/
theorem decideGroup_eligibility_iff (cfg : PrunerConfig) (now c : Int)
    (createdOf : String → Option Int) (repository digest t0 : String) (rest : List String)
    (hc : createdOf t0 = some c) :
    (∃ a, decideGroup cfg now createdOf repository digest (t0 :: rest) = .ok a ∧
        a ≠ .skip) ↔
      (cfg.reposMatch repository = true ∧ allMatch (t0 :: rest) cfg.tagsMatch = true ∧
        (cfg.minAge > 0 → c ≤ now - cfg.minAge)) := by
  simp only [decideGroup, processGroup, finishGroup, hc]
  split_ifs <;> simp_all

/-- C1 witness: with both filters matching, a 10-unit minimum age, live
mode, and a creation time of 50 at now = 100, the group is acted on. -/
theorem decideGroup_eligibility_iff_witness :
    ∃ a, decideGroup ⟨fun _ => true, fun _ => true, 10, false⟩ 100 (fun _ => some 50)
        "app" "sha" ["v1"] = .ok a ∧ a ≠ .skip :=
  (decideGroup_eligibility_iff ⟨fun _ => true, fun _ => true, 10, false⟩ 100 50
      (fun _ => some 50) "app" "sha" "v1" [] rfl).mpr (by decide)

/-- C1 counterexample: a group created exactly `now - minAge` ago (90, with
now = 100 and minAge = 10) is deleted by the code although it is not
strictly older than `now - minAge`, so the claim's strict-age eligibility
condition does not hold of the code. -/
theorem decideGroup_strict_age_counterexample :
    decideGroup ⟨fun _ => true, fun _ => true, 10, false⟩ 100 (fun _ => some 90)
        "app" "sha" ["v1"] = .ok (.deleteManifest "app" "sha" ["v1"]) ∧
      ¬((90 : Int) < 100 - 10) := by
  decide

/-- C2: in dry-run mode every group decision is a skip or a would-delete —
never a `DeleteManifest` call — and leads to no registry DELETE request. -/
theorem dryRun_records_wouldDelete (cfg : PrunerConfig) (now : Int)
    (createdOf : String → Option Int) (repository digest : String) (tags : List String)
    (hdry : cfg.dry = true) (a : GroupAction)
    (ha : decideGroup cfg now createdOf repository digest tags = .ok a) :
    (a = .skip ∨ a = .wouldDelete repository digest tags) ∧ groupRequests a = [] := by
  have hf : finishGroup cfg repository digest tags = .ok (.wouldDelete repository digest tags) := by
    unfold finishGroup
    rw [hdry]
    rfl
  unfold decideGroup processGroup at ha
  split at ha
  · injection ha with h
    subst h
    exact ⟨.inl rfl, rfl⟩
  · split at ha
    · injection ha with h
      subst h
      exact ⟨.inl rfl, rfl⟩
    · split at ha
      · split at ha
        · exact nomatch ha
        · split at ha
          · injection ha with h
            subst h
            exact ⟨.inl rfl, rfl⟩
          · split at ha
            · injection ha with h
              subst h
              exact ⟨.inl rfl, rfl⟩
            · rw [hf] at ha
              injection ha with h
              subst h
              exact ⟨.inr rfl, rfl⟩
      · rw [hf] at ha
        injection ha with h
        subst h
        exact ⟨.inr rfl, rfl⟩

/-- C2 witness: an eligible group in dry-run mode yields the would-delete
record and no DELETE request. -/
theorem dryRun_records_wouldDelete_witness :
    (GroupAction.wouldDelete "app" "sha" ["v1"] = .skip ∨
      GroupAction.wouldDelete "app" "sha" ["v1"] = .wouldDelete "app" "sha" ["v1"]) ∧
    groupRequests (.wouldDelete "app" "sha" ["v1"]) = [] :=
  dryRun_records_wouldDelete ⟨fun _ => true, fun _ => true, 10, true⟩ 100 (fun _ => some 50)
    "app" "sha" ["v1"] rfl (.wouldDelete "app" "sha" ["v1"]) (by decide)

/-- C9: a successful v1 manifest response that decodes to an empty history
list makes `GetManifestDigestAndCreated` panic (the unchecked
`manifest.History[0]`), and an error return of the operation only arises
from a failure of the request itself or from a JSON-decoding failure. -/
theorem getManifest_empty_history_panics :
    (∀ resp : HttpResponse, resp.v1History = some [] →
       GetManifestDigestAndCreated (.ok resp) = .panicked) ∧
    (∀ (res : Except ReqError HttpResponse) (e : ReqError),
       GetManifestDigestAndCreated res = .ok (.error e) →
       res = .error e ∨ e = .jsonDecode) := by
  constructor
  · intro resp h
    simp [GetManifestDigestAndCreated, h]
  · intro res e h
    unfold GetManifestDigestAndCreated at h
    split at h
    · injection h with h2
      injection h2 with h3
      subst h3
      exact .inl rfl
    · split at h
      · injection h with h2
        injection h2 with h3
        subst h3
        exact .inr rfl
      · split at h
        · exact nomatch h
        · split at h
          · injection h with h2
            injection h2 with h3
            subst h3
            exact .inr rfl
          · exact nomatch h

/-- C9 witness: a 200 response whose manifest body decodes with an empty
history makes the operation panic. -/
theorem getManifest_empty_history_panics_witness :
    GetManifestDigestAndCreated (.ok { statusCode := 200, headers := [], v1History := some [] }) =
      .panicked :=
  getManifest_empty_history_panics.1 { statusCode := 200, headers := [], v1History := some [] } rfl

/-- `strIndex` is at least -1. -/
theorem strIndex_ge_neg_one (cs : List Char) (c : Char) : -1 ≤ strIndex cs c := by
  induction cs with
  | nil => simp [strIndex]
  | cons x xs ih =>
    simp only [strIndex]
    split
    · omega
    · split <;> omega

/-- `strLastIndex` of an absent character is -1. -/
theorem strLastIndex_of_not_mem (cs : List Char) (c : Char) (h : c ∉ cs) :
    strLastIndex cs c = -1 := by
  induction cs with
  | nil => rfl
  | cons x xs ih =>
    have hx : ¬x = c := fun hh => h (hh ▸ List.mem_cons_self x xs)
    have hxs : c ∉ xs := fun hh => h (List.mem_cons_of_mem _ hh)
    simp only [strLastIndex, ih hxs, hx]
    norm_num

/-- C10: a present, non-empty `Link` header containing no `>` character
makes `nextPagePath` panic (the slice upper bound is the failed
`strings.LastIndex`, -1), and a catalog page carrying such a header aborts
the whole `GetRepositories` enumeration with that panic. -/
theorem nextPagePath_no_gt_panics :
    (∀ resp : HttpResponse, headerGet resp "Link" ≠ "" →
       '>' ∉ (headerGet resp "Link").toList → nextPagePath resp = .panicked) ∧
    (∀ (resp : HttpResponse) (rest : List HttpResponse) (names : List String),
       resp.catalogRepositories = some names →
       headerGet resp "Link" ≠ "" → '>' ∉ (headerGet resp "Link").toList →
       GetRepositories (resp :: rest) = .panicked) := by
  have main : ∀ resp : HttpResponse, headerGet resp "Link" ≠ "" →
      '>' ∉ (headerGet resp "Link").toList → nextPagePath resp = .panicked := by
    intro resp hne hgt
    have hb := strIndex_ge_neg_one (headerGet resp "Link").toList '<'
    have he := strLastIndex_of_not_mem (headerGet resp "Link").toList '>' hgt
    simp only [nextPagePath, goStringSlice]
    rw [if_neg hne, he, if_neg (by omega)]
  refine ⟨main, fun resp rest names hcat hne hgt => ?_⟩
  unfold GetRepositories
  rw [hcat, main resp hne hgt]

/-- C10 witness: a page with Link header `nonsense` (no `>`) panics the
enumeration. -/
theorem nextPagePath_no_gt_panics_witness :
    GetRepositories
      [{ statusCode := 200, headers := [("Link", "nonsense")],
         catalogRepositories := some ["a"] }] = .panicked :=
  nextPagePath_no_gt_panics.2
    { statusCode := 200, headers := [("Link", "nonsense")], catalogRepositories := some ["a"] }
    [] ["a"] rfl (by decide) (by decide)

/-- `strIndex` finds the first occurrence: characters before it differ. -/
theorem strIndex_append_first (a t : List Char) (c : Char) (ha : c ∉ a) :
    strIndex (a ++ c :: t) c = a.length := by
  induction a with
  | nil => simp [strIndex]
  | cons x xs ih =>
    have hx : ¬x = c := fun hh => ha (hh ▸ List.mem_cons_self x xs)
    have hxs : c ∉ xs := fun hh => ha (List.mem_cons_of_mem _ hh)
    have ihh := ih hxs
    simp only [List.cons_append, strIndex, hx, if_false, List.append_eq]
    rw [ihh, if_neg (by omega)]
    simp only [List.length_cons]
    omega

/-- `strLastIndex` finds the last occurrence: characters after it differ. -/
theorem strLastIndex_append_last (b c2 : List Char) (c : Char) (hc : c ∉ c2) :
    strLastIndex (b ++ c :: c2) c = b.length := by
  induction b with
  | nil =>
    simp only [List.nil_append, strLastIndex, strLastIndex_of_not_mem c2 c hc]
    norm_num
  | cons x xs ih =>
    simp only [List.cons_append, strLastIndex, List.append_eq]
    rw [ih, if_pos (by omega)]
    simp only [List.length_cons]
    omega

/-- Slicing between one past a first `<` and a last `>` recovers exactly the
characters between them. -/
theorem goStringSlice_extract (a u c2 : List Char) :
    goStringSlice (a ++ '<' :: (u ++ '>' :: c2)) ((a.length : Int) + 1)
      (((a.length + 1 + u.length : Nat) : Int)) = .ok u.asString := by
  have hL : (a ++ '<' :: (u ++ '>' :: c2)).length = a.length + 1 + u.length + 1 + c2.length := by
    simp
    omega
  unfold goStringSlice
  rw [if_pos (by rw [hL]; omega)]
  have hb : ((a.length : Int) + 1).toNat = a.length + 1 := by omega
  have he : ((((a.length + 1 + u.length : Nat) : Int)) - ((a.length : Int) + 1)).toNat = u.length := by
    omega
  rw [hb, he]
  rw [show a ++ '<' :: (u ++ '>' :: c2) = (a ++ ['<']) ++ (u ++ '>' :: c2) from by simp]
  rw [List.drop_left' (show (a ++ ['<']).length = a.length + 1 from by simp)]
  rw [List.take_left' (rfl : u.length = u.length)]

/-- A nonempty character list renders to a nonempty string. -/
theorem asString_ne_empty (u : List Char) (hu : u ≠ []) : u.asString ≠ "" := fun h =>
  hu (by simpa [List.asString_eq] using h)

/-- A `Link` header that decomposes around a first `<` and a last `>` makes
`nextPagePath` return exactly the characters between them. -/
theorem nextPagePath_between (resp : HttpResponse) (a u c2 : List Char)
    (hdec : (headerGet resp "Link").toList = a ++ '<' :: (u ++ '>' :: c2))
    (ha : '<' ∉ a) (hc : '>' ∉ c2) :
    nextPagePath resp = .ok u.asString := by
  have hne : headerGet resp "Link" ≠ "" := by
    intro h
    rw [h] at hdec
    simp at hdec
  have h1 : strIndex (a ++ '<' :: (u ++ '>' :: c2)) '<' = a.length :=
    strIndex_append_first a _ '<' ha
  have h2 : strLastIndex (a ++ '<' :: (u ++ '>' :: c2)) '>' =
      ((a.length + 1 + u.length : Nat) : Int) := by
    have hh := strLastIndex_append_last (a ++ '<' :: u) c2 '>' hc
    rw [show (a ++ '<' :: u) ++ '>' :: c2 = a ++ '<' :: (u ++ '>' :: c2) from by simp] at hh
    rw [hh]
    simp only [List.length_append, List.length_cons]
    omega
  simp only [nextPagePath]
  rw [if_neg hne, hdec, h1, h2]
  exact goStringSlice_extract a u c2

/-- C7: repository listing follows catalog pages: a present `Link` header
yields as next page exactly the substring between its first `<` and last
`>`, an absent header yields the empty next page and so ends the loop, and
over a transcript whose last page alone lacks the header the returned names
are the concatenation of all pages' name lists in order. -/
theorem GetRepositories_pagination :
    (∀ (resp : HttpResponse) (a u c2 : List Char),
       (headerGet resp "Link").toList = a ++ '<' :: (u ++ '>' :: c2) →
       '<' ∉ a → '>' ∉ c2 → nextPagePath resp = .ok u.asString) ∧
    (∀ resp : HttpResponse, headerGet resp "Link" = "" → nextPagePath resp = .ok "") ∧
    (∀ (ps : List HttpResponse) (lastP : HttpResponse) (lastNames : List String),
       (∀ p ∈ ps, (∃ a u c2, (headerGet p "Link").toList = a ++ '<' :: (u ++ '>' :: c2) ∧
            '<' ∉ a ∧ '>' ∉ c2 ∧ u ≠ []) ∧ (p.catalogRepositories).isSome) →
       headerGet lastP "Link" = "" → lastP.catalogRepositories = some lastNames →
       GetRepositories (ps ++ [lastP]) =
         .ok (.ok (some (((ps ++ [lastP]).map fun p => p.catalogRepositories.getD []).flatten)))) := by
  refine ⟨nextPagePath_between, ?_, ?_⟩
  · intro resp h
    simp only [nextPagePath]
    rw [if_pos h]
  · intro ps lastP lastNames hmid hl hcat
    induction ps with
    | nil =>
      have hnext : nextPagePath lastP = .ok "" := by
        simp only [nextPagePath]
        rw [if_pos hl]
      simp [GetRepositories, hcat, hnext]
    | cons p ps ih =>
      obtain ⟨⟨a, u, c2, hdecomp, hna, hnc, hune⟩, hsome⟩ :=
        hmid p (List.mem_cons_self p ps)
      have hnext : nextPagePath p = .ok u.asString :=
        nextPagePath_between p a u c2 hdecomp hna hnc
      obtain ⟨names, hnames⟩ := Option.isSome_iff_exists.mp hsome
      have hrec := ih fun q hq => hmid q (List.mem_cons_of_mem _ hq)
      simp only [List.cons_append, GetRepositories, hnames, hnext, List.append_eq]
      rw [if_neg (asString_ne_empty u hune), hrec]
      simp [hnames]

/-- C7 witness: a two-page catalog (the first page linking to the second,
the second without a Link header) yields the two pages' names concatenated
in order. -/
theorem GetRepositories_pagination_witness :
    GetRepositories
      [{ statusCode := 200, headers := [("Link", "</v2/_catalog?last=a>; rel=\"next\"")],
         catalogRepositories := some ["r1", "r2"] },
       { statusCode := 200, headers := [], catalogRepositories := some ["r3"] }] =
      .ok (.ok (some ["r1", "r2", "r3"])) := by
  have h := GetRepositories_pagination.2.2
    [{ statusCode := 200, headers := [("Link", "</v2/_catalog?last=a>; rel=\"next\"")],
       catalogRepositories := some ["r1", "r2"] }]
    { statusCode := 200, headers := [], catalogRepositories := some ["r3"] } ["r3"]
    (by
      intro p hp
      simp only [List.mem_singleton] at hp
      subst hp
      exact ⟨⟨[], "/v2/_catalog?last=a".toList, "; rel=\"next\"".toList,
        by decide, by decide, by decide, by decide⟩, rfl⟩)
    rfl rfl
  simpa using h

/-- The digest keys of `addTag`: unchanged when the digest already has a
group, extended by the new digest otherwise. -/
theorem addTag_keys (m : List (String × List String)) (d t : String) :
    (addTag m d t).map Prod.fst =
      if d ∈ m.map Prod.fst then m.map Prod.fst else m.map Prod.fst ++ [d] := by
  induction m with
  | nil => simp [addTag]
  | cons p rest ih =>
    obtain ⟨d0, ts0⟩ := p
    by_cases hd : d0 = d
    · subst hd
      simp [addTag]
    · have hd2 : ¬d = d0 := fun hh => hd hh.symm
      by_cases hmem : d ∈ rest.map Prod.fst <;>
        simp [addTag, hd, hd2, hmem, ih]

/-- `addTag` preserves distinctness of the digest keys. -/
theorem addTag_keys_nodup (m : List (String × List String)) (d t : String)
    (h : (m.map Prod.fst).Nodup) : ((addTag m d t).map Prod.fst).Nodup := by
  rw [addTag_keys]
  split
  · exact h
  · next hmem =>
    simp only [List.nodup_append, List.nodup_singleton]
    exact ⟨h, trivial, by simpa [List.disjoint_singleton] using hmem⟩

/-- Go map lookup on a group list, one entry at a time. -/
theorem grpOf_cons (k : String) (v : List String) (rest : List (String × List String))
    (d' : String) : grpOf ((k, v) :: rest) d' = if k = d' then v else grpOf rest d' := by
  by_cases h : k = d' <;> simp [grpOf, List.find?_cons, h]

/-- Looking a digest up after `addTag`: the added tag lands at the end of
exactly that digest's group. -/
theorem grpOf_addTag (m : List (String × List String)) (d t d' : String) :
    grpOf (addTag m d t) d' = if d' = d then grpOf m d' ++ [t] else grpOf m d' := by
  induction m with
  | nil =>
    by_cases h : d' = d
    · subst h
      simp [addTag, grpOf_cons, grpOf]
    · simp [addTag, grpOf_cons, grpOf, h, show ¬d = d' from fun hh => h hh.symm]
  | cons p rest ih =>
    obtain ⟨d0, ts0⟩ := p
    by_cases hd : d0 = d
    · subst hd
      rw [show addTag ((d0, ts0) :: rest) d0 t = (d0, ts0 ++ [t]) :: rest from by
        simp [addTag]]
      by_cases h' : d0 = d'
      · subst h'
        simp [grpOf_cons]
      · simp [grpOf_cons, h', show ¬d' = d0 from fun hh => h' hh.symm]
    · rw [show addTag ((d0, ts0) :: rest) d t = (d0, ts0) :: addTag rest d t from by
        simp [addTag, hd]]
      by_cases h0 : d0 = d'
      · subst h0
        simp [grpOf_cons, hd]
      · simp [grpOf_cons, h0, ih]

/-- The tags of all groups after `addTag` are, up to permutation, the old
tags with the new one appended. -/
theorem addTag_flatten_perm (m : List (String × List String)) (d t : String) :
    List.Perm ((addTag m d t).map Prod.snd).flatten
      (((m.map Prod.snd).flatten) ++ [t]) := by
  induction m with
  | nil => simp [addTag]
  | cons p rest ih =>
    obtain ⟨d0, ts0⟩ := p
    by_cases hd : d0 = d
    · subst hd
      rw [show addTag ((d0, ts0) :: rest) d0 t = (d0, ts0 ++ [t]) :: rest from by
        simp [addTag]]
      simp only [List.map_cons, List.flatten_cons, List.append_assoc]
      exact List.Perm.append_left ts0 List.perm_append_comm
    · rw [show addTag ((d0, ts0) :: rest) d t = (d0, ts0) :: addTag rest d t from by
        simp [addTag, hd]]
      simp only [List.map_cons, List.flatten_cons, List.append_assoc]
      exact List.Perm.append_left ts0 ih

/-- The grouping loop: full characterisation relative to an accumulator. -/
theorem groupLoop_spec (digestOf : String → Except ReqError String) (tags : List String)
    (acc : List (String × List String))
    (h : ∀ t ∈ tags, ∃ d, digestOf t = .ok d) :
    ∃ m, groupLoop digestOf tags acc = .ok m ∧
      (∀ d, grpOf m d = grpOf acc d ++
        tags.filter (fun t => match digestOf t with | .ok dd => dd == d | .error _ => false)) ∧
      List.Perm ((m.map Prod.snd).flatten) (((acc.map Prod.snd).flatten) ++ tags) ∧
      ((acc.map Prod.fst).Nodup → (m.map Prod.fst).Nodup) := by
  induction tags generalizing acc with
  | nil => exact ⟨acc, rfl, by simp, by simp, id⟩
  | cons t ts ih =>
    obtain ⟨dt, hdt⟩ := h t (List.mem_cons_self t ts)
    obtain ⟨m, hm, hg, hp, hn⟩ :=
      ih (addTag acc dt t) (fun q hq => h q (List.mem_cons_of_mem _ hq))
    refine ⟨m, ?_, ?_, ?_, ?_⟩
    · simpa [groupLoop, hdt] using hm
    · intro d
      rw [hg d, grpOf_addTag]
      by_cases hdd : d = dt
      · subst hdd
        simp [hdt, List.filter_cons]
      · simp [hdt, List.filter_cons, Ne.symm hdd, hdd]
    · refine List.Perm.trans hp ?_
      refine List.Perm.trans (List.Perm.append_right ts (addTag_flatten_perm acc dt t)) ?_
      simp
    · intro hnd
      exact hn (addTag_keys_nodup _ _ _ hnd)

/-- C8: grouping a repository's tags by digest (when every digest lookup
succeeds) produces a map whose group for each digest is exactly the
sub-sequence of input tags that resolved to that digest, whose groups
together hold a permutation of the full input tag list (no duplicates, no
omissions), and whose digest keys are distinct. -/
theorem GetTagsIndexedByDigest_spec (digestOf : String → Except ReqError String)
    (tags : List String) (h : ∀ t ∈ tags, ∃ d, digestOf t = .ok d) :
    ∃ m, GetTagsIndexedByDigest digestOf tags = .ok m ∧
      (∀ d, grpOf m d =
        tags.filter (fun t => match digestOf t with | .ok dd => dd == d | .error _ => false)) ∧
      List.Perm ((m.map Prod.snd).flatten) tags ∧
      (m.map Prod.fst).Nodup := by
  obtain ⟨m, hm, hg, hp, hn⟩ := groupLoop_spec digestOf tags [] h
  refine ⟨m, hm, fun d => by simpa [grpOf] using hg d, by simpa using hp, hn (by simp)⟩

/-- C8 witness: three tags over two digests group into exactly the two
expected groups. -/
theorem GetTagsIndexedByDigest_spec_witness :
    ∃ m, GetTagsIndexedByDigest
        (fun t => .ok (if t == "latest" then "sha:b" else "sha:a"))
        ["v1", "v2", "latest"] = .ok m ∧
      (∀ d, grpOf m d = ["v1", "v2", "latest"].filter
        (fun t => match (Except.ok (if t == "latest" then "sha:b" else "sha:a") :
            Except ReqError String) with
          | .ok dd => dd == d
          | .error _ => false)) ∧
      List.Perm ((m.map Prod.snd).flatten) ["v1", "v2", "latest"] ∧
      (m.map Prod.fst).Nodup :=
  GetTagsIndexedByDigest_spec (fun t => .ok (if t == "latest" then "sha:b" else "sha:a"))
    ["v1", "v2", "latest"]
    (fun t _ => ⟨if t == "latest" then "sha:b" else "sha:a", rfl⟩)

/-- C5 (amended): for a challenge header of at least 7 characters, deriving
the token-request URL fails with an error exactly when the scheme prefix is
not `Bearer ` or one of `realm`, `service`, `scope` is missing from the
parsed pairs; when none of these hold it returns the realm URL carrying
service and scope as query parameters.  (On a header shorter than 7
characters the function instead panics on the `header[:7]` slice.) -/
theorem tokenRequestURL_spec (resp : HttpResponse)
    (h7 : ¬(headerGet resp "Www-Authenticate").length < 7) :
    ((∃ e, tokenRequestURLFromResponse resp = .ok (.error e)) ↔
      ((headerGet resp "Www-Authenticate").take 7 ≠ "Bearer " ∨
       lookupOpt (extractKeyValuePairs (headerGet resp "Www-Authenticate")) "realm" = none ∨
       lookupOpt (extractKeyValuePairs (headerGet resp "Www-Authenticate")) "service" = none ∨
       lookupOpt (extractKeyValuePairs (headerGet resp "Www-Authenticate")) "scope" = none)) ∧
    (∀ realm service scope,
      (headerGet resp "Www-Authenticate").take 7 = "Bearer " →
      lookupOpt (extractKeyValuePairs (headerGet resp "Www-Authenticate")) "realm" = some realm →
      lookupOpt (extractKeyValuePairs (headerGet resp "Www-Authenticate")) "service" = some service →
      lookupOpt (extractKeyValuePairs (headerGet resp "Www-Authenticate")) "scope" = some scope →
      tokenRequestURLFromResponse resp =
        .ok (.ok (realm ++ "?" ++ urlValuesEncode [("service", service), ("scope", scope)]))) := by
  simp only [tokenRequestURLFromResponse]
  rw [if_neg h7]
  by_cases htake : (headerGet resp "Www-Authenticate").take 7 = "Bearer "
  · rw [if_neg (not_not_intro htake)]
    cases lookupOpt (extractKeyValuePairs (headerGet resp "Www-Authenticate")) "realm" with
    | none =>
      refine ⟨⟨fun _ => .inr (.inl rfl), fun _ => ⟨.missingRealm, rfl⟩⟩, ?_⟩
      intro realm service scope _ hrr _ _
      exact nomatch hrr
    | some realm0 =>
      cases lookupOpt (extractKeyValuePairs (headerGet resp "Www-Authenticate")) "service" with
      | none =>
        refine ⟨⟨fun _ => .inr (.inr (.inl rfl)), fun _ => ⟨.missingService, rfl⟩⟩, ?_⟩
        intro realm service scope _ _ hss _
        exact nomatch hss
      | some service0 =>
        cases lookupOpt (extractKeyValuePairs (headerGet resp "Www-Authenticate")) "scope" with
        | none =>
          refine ⟨⟨fun _ => .inr (.inr (.inr rfl)), fun _ => ⟨.missingScope, rfl⟩⟩, ?_⟩
          intro realm service scope _ _ _ hscc
          exact nomatch hscc
        | some scope0 =>
          constructor
          · constructor
            · rintro ⟨e, he⟩
              injection he with h2
              exact nomatch h2
            · intro h
              rcases h with h | h | h | h
              · exact absurd htake h
              · exact nomatch h
              · exact nomatch h
              · exact nomatch h
          · intro realm service scope _ hrr hss hscc
            cases hrr
            cases hss
            cases hscc
            rfl
  · rw [if_pos htake]
    refine ⟨⟨fun _ => .inl htake, fun _ => ⟨.authSchemeUnsupported, rfl⟩⟩, ?_⟩
    intro realm service scope ht _ _ _
    exact absurd ht htake

/-- C5 witness: a well-formed Bearer challenge yields the realm URL with the
escaped, key-sorted service and scope parameters, and no error. -/
theorem tokenRequestURL_spec_witness :
    tokenRequestURLFromResponse
        { statusCode := 401,
          headers := [("Www-Authenticate", "Bearer realm=\"r\",service=\"s\",scope=\"t\"")] } =
      .ok (.ok "r?scope=t&service=s") := by
  rw [(tokenRequestURL_spec
    { statusCode := 401,
      headers := [("Www-Authenticate", "Bearer realm=\"r\",service=\"s\",scope=\"t\"")] }
    (by decide)).2 "r" "s" "t"
    (by decide) (by decide) (by decide) (by decide)]
  rfl

/-- C5 counterexample: the 5-character challenge header `Basic` names a
scheme other than Bearer, for which the claim requires an error return, but
the code panics on the out-of-range `header[:7]` slice instead. -/
theorem tokenRequestURL_short_header_counterexample :
    tokenRequestURLFromResponse
        { statusCode := 401, headers := [("Www-Authenticate", "Basic")] } = .panicked ∧
      "Basic".take 7 ≠ "Bearer " := by
  exact ⟨rfl, by decide⟩

/-- C4 (amended): once the token-request URL is derived, the bearer-token
exchange GETs it (carrying basic credentials when a user is configured); it
fails with an error when the transport fails, when the status is not a
success, or when the body is not decodable JSON — but a successfully
decoded JSON object that merely lacks a `token` field is not an error: the
zero-value empty string is returned as the token, and a present `token`
field is returned as the token. -/
theorem fetchBearerToken_spec (tokenNet : TokenRequest → Except String HttpResponse)
    (st : APIState) (denied : HttpResponse) (u : String)
    (hu : tokenRequestURLFromResponse denied = .ok (.ok u)) :
    (∀ msg, tokenNet ⟨u, if st.user ≠ "" then some (st.user, st.pass) else none⟩ = .error msg →
       fetchBearerToken tokenNet st denied = .ok (.error (.transport msg))) ∧
    (∀ resp, tokenNet ⟨u, if st.user ≠ "" then some (st.user, st.pass) else none⟩ = .ok resp →
      ((300 ≤ resp.statusCode →
         fetchBearerToken tokenNet st denied =
           .ok (.error (.tokenServiceStatus resp.statusCode))) ∧
       (¬300 ≤ resp.statusCode → resp.tokenJson = none →
         fetchBearerToken tokenNet st denied = .ok (.error .jsonDecode)) ∧
       (∀ fields, ¬300 ≤ resp.statusCode → resp.tokenJson = some fields →
         fetchBearerToken tokenNet st denied = .ok (.ok (lookupString fields "token"))))) := by
  constructor
  · intro msg hmsg
    simp only [fetchBearerToken, hu, hmsg]
  · intro resp hresp
    refine ⟨?_, ?_, ?_⟩
    · intro h300
      simp only [fetchBearerToken, hu, hresp]
      rw [if_pos h300]
    · intro h300 hjson
      simp only [fetchBearerToken, hu, hresp, hjson]
      rw [if_neg h300]
    · intro fields h300 hjson
      simp only [fetchBearerToken, hu, hresp, hjson]
      rw [if_neg h300]

/-- C4 witness: a valid challenge and a 200 token response carrying
`{"token": "tok"}` yield the token `tok` with no error. -/
theorem fetchBearerToken_spec_witness :
    fetchBearerToken
        (fun _ => .ok { statusCode := 200, headers := [], tokenJson := some [("token", "tok")] })
        ⟨"", "", "", 0⟩
        { statusCode := 401,
          headers := [("Www-Authenticate", "Bearer realm=\"r\",service=\"s\",scope=\"t\"")] } =
      .ok (.ok "tok") := by
  rw [((fetchBearerToken_spec
      (fun _ => .ok { statusCode := 200, headers := [], tokenJson := some [("token", "tok")] })
      ⟨"", "", "", 0⟩
      { statusCode := 401,
        headers := [("Www-Authenticate", "Bearer realm=\"r\",service=\"s\",scope=\"t\"")] }
      "r?scope=t&service=s" (by decide)).2
      { statusCode := 200, headers := [], tokenJson := some [("token", "tok")] } rfl).2.2
      [("token", "tok")] (by decide) rfl]
  rfl

/-- C4 counterexample: with a valid challenge and a 200 token response whose
JSON object has no `token` field, the exchange returns the empty token and
no error, where the claim requires it to fail with an error. -/
theorem fetchBearerToken_missing_token_counterexample :
    fetchBearerToken (fun _ => .ok { statusCode := 200, headers := [], tokenJson := some [] })
        ⟨"", "", "", 0⟩
        { statusCode := 401,
          headers := [("Www-Authenticate", "Bearer realm=\"r\",service=\"s\",scope=\"t\"")] } =
      .ok (.ok "") ∧
    lookupOpt [] "token" = none := by
  exact ⟨by decide, rfl⟩

/-- C3: every `request` operation sends at most two registry requests and
fetches a token at most once; after a 401 carrying a challenge header whose
token fetch succeeds, the original request is re-issued exactly once,
differing only in the freshly fetched bearer token, and a non-success
status on that retried request is returned as the operation's error. -/
theorem request_single_retry :
    (∀ net tokenNet st method path version,
       (request net tokenNet st method path version).2.registryCalls.length ≤ 2 ∧
       (request net tokenNet st method path version).2.tokenFetches ≤ 1) ∧
    (∀ net tokenNet st method path version resp1 token,
       net (buildRequest st method path version) = .ok resp1 →
       resp1.statusCode = 401 →
       headerGet resp1 "Www-Authenticate" ≠ "" →
       fetchBearerToken tokenNet st resp1 = .ok (.ok token) →
       ((request net tokenNet st method path version).2.registryCalls =
          [buildRequest st method path version,
           { buildRequest st method path version with bearer := token }] ∧
        (∀ resp2,
           net (buildRequest { st with bearerToken := token } method path version) = .ok resp2 →
           300 ≤ resp2.statusCode →
           (request net tokenNet st method path version).1 =
             .ok ({ st with bearerToken := token },
                  .error (.nonSuccessStatus resp2.statusCode method path))))) := by
  constructor
  · intro net tokenNet st method path version
    simp only [request]
    repeat' split
    all_goals simp
  · intro net tokenNet st method path version resp1 token h1 h401 hdr hf
    have hreg : registryRequest net st method path version = .ok resp1 := h1
    have hb2 : buildRequest { st with bearerToken := token } method path version =
        { buildRequest st method path version with bearer := token } := rfl
    unfold request
    simp only [hreg]
    rw [if_neg (by rw [h401]; norm_num)]
    rw [if_pos ⟨h401, hdr⟩]
    simp only [hf]
    refine ⟨?_, ?_⟩
    · cases hnet2 : registryRequest net { st with bearerToken := token } method path version with
      | error msg => simp [hb2]
      | ok resp2 =>
        by_cases h3 : 300 ≤ resp2.statusCode <;> simp [h3, hb2]
    · intro resp2 hnet2 h300
      have hreg2 : registryRequest net { st with bearerToken := token } method path version =
          .ok resp2 := hnet2
      simp only [hreg2]
      rw [if_pos h300]

/-- C3 witness: a first request answered 401 with a valid challenge, a
token service answering `{"token": "tok"}`, and a registry accepting the
bearer token produce exactly two registry requests, the second differing
from the first only by the fetched bearer token. -/
theorem request_single_retry_witness :
    (request
        (fun req => if req.bearer == "" then
            .ok { statusCode := 401,
                  headers := [("Www-Authenticate", "Bearer realm=\"r\",service=\"s\",scope=\"t\"")] }
          else .ok { statusCode := 200, headers := [] })
        (fun _ => .ok { statusCode := 200, headers := [], tokenJson := some [("token", "tok")] })
        ⟨"", "", "", 0⟩ "GET" "/v2/_catalog" .v2).2.registryCalls =
      [buildRequest ⟨"", "", "", 0⟩ "GET" "/v2/_catalog" .v2,
       { buildRequest ⟨"", "", "", 0⟩ "GET" "/v2/_catalog" .v2 with bearer := "tok" }] :=
  (request_single_retry.2
    (fun req => if req.bearer == "" then
        .ok { statusCode := 401,
              headers := [("Www-Authenticate", "Bearer realm=\"r\",service=\"s\",scope=\"t\"")] }
      else .ok { statusCode := 200, headers := [] })
    (fun _ => .ok { statusCode := 200, headers := [], tokenJson := some [("token", "tok")] })
    ⟨"", "", "", 0⟩ "GET" "/v2/_catalog" .v2
    { statusCode := 401,
      headers := [("Www-Authenticate", "Bearer realm=\"r\",service=\"s\",scope=\"t\"")] } "tok"
    (by decide) (by decide) (by decide) (by decide)).1

/-- `matchKV` fails at a position whose first character is not a word
character (the pattern must start with `\w`). -/
theorem matchKV_not_word (c : Char) (cs : List Char) (h : isWordChar c = false) :
    matchKV (c :: cs) = none := by
  simp [matchKV, List.takeWhile_cons, h]

/-- `findAllKV` skips one non-word character. -/
theorem findAllKV_skip (fuel : Nat) (c : Char) (cs : List Char)
    (h : isWordChar c = false) :
    findAllKV (fuel + 1) (c :: cs) = findAllKV fuel cs := by
  simp [findAllKV, matchKV_not_word c cs h]

/-- `findAllKV` finds nothing in an exhausted input. -/
theorem findAllKV_nil (fuel : Nat) : findAllKV fuel [] = [] := by
  cases fuel <;> rfl

/-- `takeWhile` stops exactly at the first failing character. -/
theorem takeWhile_append_stop (p : Char → Bool) (a : List Char) (x : Char) (b : List Char)
    (ha : ∀ c ∈ a, p c = true) (hx : p x = false) :
    (a ++ x :: b).takeWhile p = a := by
  induction a with
  | nil => simp [List.takeWhile_cons, hx]
  | cons c a ih =>
    simp only [List.cons_append, List.takeWhile_cons, ha c (List.mem_cons_self c a)]
    rw [ih fun c2 hc2 => ha c2 (List.mem_cons_of_mem _ hc2)]
    simp

/-- A rendered `key="value"` unit at the head of the input is exactly what
the pattern matches, leaving precisely the remainder. -/
theorem matchKV_render (k v : String) (rest : List Char)
    (hk : k.toList ≠ []) (hkw : ∀ c ∈ k.toList, isWordChar c = true)
    (hv : ∀ c ∈ v.toList, (c == '"') = false) :
    matchKV (renderKV k v ++ rest) = some (k, v, rest) := by
  have hshape : renderKV k v ++ rest =
      k.toList ++ '=' :: '"' :: (v.toList ++ '"' :: rest) := by
    simp [renderKV]
  rw [hshape]
  have hw : (k.toList ++ '=' :: '"' :: (v.toList ++ '"' :: rest)).takeWhile isWordChar =
      k.toList :=
    takeWhile_append_stop isWordChar k.toList '=' _ hkw (by decide)
  have hd : (k.toList ++ '=' :: '"' :: (v.toList ++ '"' :: rest)).drop k.toList.length =
      '=' :: '"' :: (v.toList ++ '"' :: rest) :=
    List.drop_left' rfl
  have hvw : (v.toList ++ '"' :: rest).takeWhile (fun c => !(c == '"')) = v.toList :=
    takeWhile_append_stop _ v.toList '"' rest
      (fun c hc => by simp [hv c hc]) (by decide)
  have hvd : (v.toList ++ '"' :: rest).drop v.toList.length = '"' :: rest :=
    List.drop_left' rfl
  simp only [matchKV, hw, hd, hvw, hvd]
  rw [if_neg (by simpa using hk)]
  simp only [Option.some.injEq, Prod.mk.injEq]
  exact ⟨String.asString_toList k, String.asString_toList v, trivial⟩

/-- `findAllKV` skips a whole run of non-word separator characters. -/
theorem findAllKV_skip_junk (junk : List Char) (rest : List Char)
    (hj : ∀ c ∈ junk, isWordChar c = false) :
    ∀ fuel, junk.length + rest.length ≤ fuel →
      findAllKV fuel (junk ++ rest) = findAllKV (fuel - junk.length) rest := by
  induction junk with
  | nil => intro fuel _; simp
  | cons c junk ih =>
    intro fuel hfuel
    cases fuel with
    | zero => simp at hfuel
    | succ f =>
      rw [List.cons_append, findAllKV_skip f c (junk ++ rest) (hj c (List.mem_cons_self c junk))]
      rw [ih (fun c2 hc2 => hj c2 (List.mem_cons_of_mem _ hc2)) f (by simp at hfuel; omega)]
      simp only [List.length_cons]
      congr 1
      omega

/-- The length of one rendered `key="value"` unit. -/
theorem renderKV_length (k v : String) :
    (renderKV k v).length = k.toList.length + v.toList.length + 3 := by
  simp [renderKV]
  omega

/-- One step of the rendering, reassociated around the first unit. -/
theorem renderItems_cons (sep : List Char) (k v : String)
    (items : List (List Char × String × String)) :
    renderItems ((sep, k, v) :: items) = sep ++ (renderKV k v ++ renderItems items) := by
  simp [renderItems]

/-- `findAllKV`, on a rendering of separated `key="value"` units, returns
exactly the key/value pairs in order. -/
theorem findAllKV_render (items : List (List Char × String × String))
    (hgood : ∀ i ∈ items, (∀ c ∈ i.1, isWordChar c = false) ∧ i.2.1.toList ≠ [] ∧
       (∀ c ∈ i.2.1.toList, isWordChar c = true) ∧ (∀ c ∈ i.2.2.toList, (c == '"') = false)) :
    ∀ fuel, (renderItems items).length ≤ fuel →
      findAllKV fuel (renderItems items) = items.map (fun i => (i.2.1, i.2.2)) := by
  induction items with
  | nil =>
    intro fuel _
    exact findAllKV_nil fuel
  | cons i items ih =>
    obtain ⟨sep, k, v⟩ := i
    obtain ⟨hsep, hk, hkw, hv⟩ := hgood (sep, k, v) (List.mem_cons_self _ _)
    intro fuel hfuel
    rw [renderItems_cons] at hfuel
    simp only [List.length_append] at hfuel
    have hkv3 := renderKV_length k v
    have hk1 : 1 ≤ k.toList.length := by
      cases hkl : k.toList with
      | nil => exact absurd hkl hk
      | cons a b => simp
    rw [renderItems_cons]
    rw [findAllKV_skip_junk sep _ hsep fuel (by rw [List.length_append]; omega)]
    obtain ⟨kc, kt, hkck⟩ : ∃ kc kt, k.toList = kc :: kt := by
      cases hkl : k.toList with
      | nil => exact absurd hkl hk
      | cons a b => exact ⟨a, b, rfl⟩
    cases hrem : fuel - sep.length with
    | zero => omega
    | succ f =>
      have hkck2 : k.data = kc :: kt := hkck
      have hcons : renderKV k v ++ renderItems items =
          kc :: (kt ++ '=' :: '"' :: (v.toList ++ '"' :: renderItems items)) := by
        simp [renderKV, hkck, hkck2]
      rw [hcons]
      simp only [findAllKV]
      rw [show kc :: (kt ++ '=' :: '"' :: (v.toList ++ '"' :: renderItems items)) =
        renderKV k v ++ renderItems items from hcons.symm]
      simp only [matchKV_render k v (renderItems items) hk hkw hv]
      rw [ih (fun q hq => hgood q (List.mem_cons_of_mem _ hq)) f (by omega)]
      simp

/-- `mapSet` with a fresh key appends the pair. -/
theorem mapSet_not_mem (m : List (String × String)) (k v : String)
    (h : ¬k ∈ m.map Prod.fst) : mapSet m k v = m ++ [(k, v)] := by
  induction m with
  | nil => rfl
  | cons p rest ih =>
    obtain ⟨k0, v0⟩ := p
    have hk0 : ¬k0 = k := by
      intro hh
      exact h (by simp [hh])
    simp only [mapSet]
    rw [if_neg (by simpa using hk0)]
    rw [ih fun hh => h (by simp; right; simpa using hh)]
    simp

/-- Folding `mapSet` over pairs with distinct keys, disjoint from the
accumulator's keys, just appends them. -/
theorem foldl_mapSet_nodup (pairs : List (String × String)) :
    ∀ acc : List (String × String), (pairs.map Prod.fst).Nodup →
      (∀ p ∈ pairs, ¬p.1 ∈ acc.map Prod.fst) →
      pairs.foldl (fun result m => mapSet result m.1 m.2) acc = acc ++ pairs := by
  induction pairs with
  | nil =>
    intro acc _ _
    simp
  | cons p ps ih =>
    obtain ⟨k1, v1⟩ := p
    intro acc hnd hdisj
    have hnd2 : (ps.map Prod.fst).Nodup := by
      simp only [List.map_cons, List.nodup_cons] at hnd
      exact hnd.2
    have hp1 : ¬(k1, v1).1 ∈ ps.map Prod.fst := by
      simp only [List.map_cons, List.nodup_cons] at hnd
      exact hnd.1
    have hdisj2 : ∀ q ∈ ps, ¬q.1 ∈ (acc ++ [(k1, v1)]).map Prod.fst := by
      intro q hq hmem
      simp only [List.map_append, List.mem_append, List.map_cons, List.map_nil,
        List.mem_singleton] at hmem
      rcases hmem with hacc | hpp
      · exact hdisj q (List.mem_cons_of_mem _ hq) hacc
      · exact hp1 (by rw [← hpp]; exact List.mem_map.mpr ⟨q, hq, rfl⟩)
    simp only [List.foldl_cons]
    rw [mapSet_not_mem acc (k1, v1).1 (k1, v1).2 (hdisj (k1, v1) (List.mem_cons_self _ ps))]
    rw [ih (acc ++ [(k1, v1)]) hnd2 hdisj2]
    simp

/-- C6 (amended): for every well-formed challenge header — `key="value"`
units with nonempty word-character keys, quote-free values and pairwise
distinct keys, separated by runs of non-word characters (a comma followed
by arbitrary whitespace in particular) — extraction returns exactly the
mapping of those keys to those values, and the empty header yields the
empty mapping.  Malformed input does not in general yield an empty mapping:
the scan still collects every embedded `key="value"` unit (see the
counterexample). -/
theorem extractKeyValuePairs_spec :
    (∀ (items : List (List Char × String × String)) (header : String),
       header.toList = renderItems items →
       (∀ i ∈ items, (∀ c ∈ i.1, isWordChar c = false) ∧ i.2.1.toList ≠ [] ∧
          (∀ c ∈ i.2.1.toList, isWordChar c = true) ∧
          (∀ c ∈ i.2.2.toList, (c == '"') = false)) →
       (items.map fun i => i.2.1).Nodup →
       extractKeyValuePairs header = items.map fun i => (i.2.1, i.2.2)) ∧
    extractKeyValuePairs "" = [] := by
  constructor
  · intro items header hdec hgood hnd
    simp only [extractKeyValuePairs]
    rw [hdec]
    rw [findAllKV_render items hgood _ le_rfl]
    have hkeys : ((items.map fun i => (i.2.1, i.2.2)).map Prod.fst) =
        items.map fun i => i.2.1 := by
      simp [List.map_map, Function.comp]
    rw [foldl_mapSet_nodup (items.map fun i => (i.2.1, i.2.2)) []
      (by rw [hkeys]; exact hnd) (by intro p _ hmem; simp at hmem)]
    simp
  · rfl

/-- C6 witness: the repository test case `foo="bar", foz="baz"` (comma and
whitespace separated) parses to exactly its two pairs. -/
theorem extractKeyValuePairs_spec_witness :
    extractKeyValuePairs "foo=\"bar\", foz=\"baz\"" = [("foo", "bar"), ("foz", "baz")] := by
  have h := extractKeyValuePairs_spec.1 [([], "foo", "bar"), ([',', ' '], "foz", "baz")]
    "foo=\"bar\", foz=\"baz\"" (by decide) (by decide) (by decide)
  simpa using h

/-- C6 counterexample: the header `Bearer realm="r"` is malformed for the
claim's comma-separated pair grammar (it starts with a bare scheme word),
yet extraction returns a non-empty mapping — the embedded pair — not the
empty mapping the claim assigns to malformed input. -/
theorem extractKeyValuePairs_malformed_counterexample :
    extractKeyValuePairs "Bearer realm=\"r\"" = [("realm", "r")] ∧
      ¬extractKeyValuePairs "Bearer realm=\"r\"" = [] := by
  exact ⟨by decide, by decide⟩
